import Mathlib

/-!
Verification of the `Vector4i` value type from `godot-core/src/builtin/vector4i.rs`.

The Rust struct has four public `i32` fields `x, y, z, w`.  In this shallow
embedding the components are modelled as `Int`; where 32-bit bounds matter
(the float-to-int saturating cast) the bounds appear explicitly as the
constants `i32Min` and `i32Max`.
-/

/-- The `i32` minimum, `-2^31`. -/
def i32Min : Int := -(2 ^ 31)

/-- The `i32` maximum, `2^31 - 1`. -/
def i32Max : Int := 2 ^ 31 - 1

/-- Embedding of the Rust struct `Vector4i` (four `i32` fields, in
declaration order x, y, z, w). -/
structure Vector4i where
  x : Int
  y : Int
  z : Int
  w : Int
deriving DecidableEq, Repr

/-- Embedding of the glam SIMD lane type `IVec4` (four `i32` lanes). -/
structure IVec4 where
  x : Int
  y : Int
  z : Int
  w : Int
deriving DecidableEq, Repr

/-- `IVec4::new` (componentwise constructor). -/
def IVec4.new (x y z w : Int) : IVec4 := ⟨x, y, z, w⟩

/-- `Vector4i::new`: returns a `Vector4i` with the given components. -/
def Vector4i.new (x y z w : Int) : Vector4i := ⟨x, y, z, w⟩

/-- `Vector4i::splat`: all components set to `v`. -/
def Vector4i.splat (v : Int) : Vector4i := Vector4i.new v v v v

/-- `Vector4i::ZERO`. -/
def Vector4i.ZERO : Vector4i := Vector4i.splat 0

/-- `Vector4i::ONE`. -/
def Vector4i.ONE : Vector4i := Vector4i.splat 1

/-- `Vector4i::from_glam`: `Self::new(v.x, v.y, v.z, v.w)`. -/
def Vector4i.from_glam (v : IVec4) : Vector4i := Vector4i.new v.x v.y v.z v.w

/-- `Vector4i::to_glam`: `IVec4::new(self.x, self.y, self.z, self.w)`. -/
def Vector4i.to_glam (v : Vector4i) : IVec4 := IVec4.new v.x v.y v.z v.w

/-- `GlamType::to_front` for `IVec4`: `Vector4i::new(self.x, self.y, self.z, self.w)`. -/
def IVec4.to_front (v : IVec4) : Vector4i := Vector4i.new v.x v.y v.z v.w

/-- `GlamType::from_front` for `IVec4`: `IVec4::new(mapped.x, mapped.y, mapped.z, mapped.w)`. -/
def IVec4.from_front (mapped : Vector4i) : IVec4 :=
  IVec4.new mapped.x mapped.y mapped.z mapped.w

/-- Components determine the vector. -/
theorem Vector4i.eq_iff (a b : Vector4i) :
    a = b ↔ a.x = b.x ∧ a.y = b.y ∧ a.z = b.z ∧ a.w = b.w := by
  cases a; cases b; simp_all

/-- Embedding of `i32::cmp` (the total comparison on the component type). -/
def cmpInt (a b : Int) : Ordering :=
  if a < b then Ordering.lt else if a = b then Ordering.eq else Ordering.gt

/-- Embedding of the derived `Ord` on `Vector4i`: Rust derives a field-by-field
comparison in declaration order (x, y, z, w), each tie passing to the next
field, which is `Ordering::then` chaining. -/
def Vector4i.cmp (a b : Vector4i) : Ordering :=
  (cmpInt a.x b.x).then ((cmpInt a.y b.y).then ((cmpInt a.z b.z).then (cmpInt a.w b.w)))

/-- Embedding of `<` from the derived `PartialOrd`/`Ord`:
`a < b` iff `a.cmp(&b) == Ordering::Less`. -/
def Vector4i.lt (a b : Vector4i) : Prop := Vector4i.cmp a b = Ordering.lt

instance (a b : Vector4i) : Decidable (Vector4i.lt a b) := by
  unfold Vector4i.lt; infer_instance

theorem cmpInt_eq_lt (a b : Int) : cmpInt a b = Ordering.lt ↔ a < b := by
  unfold cmpInt
  split
  · simp_all
  · split <;> simp_all

theorem cmpInt_eq_eq (a b : Int) : cmpInt a b = Ordering.eq ↔ a = b := by
  unfold cmpInt
  split
  · simp_all
    omega
  · split <;> simp_all

theorem then_eq_lt (o p : Ordering) :
    o.then p = Ordering.lt ↔ o = Ordering.lt ∨ (o = Ordering.eq ∧ p = Ordering.lt) := by
  cases o <;> simp [Ordering.then]

/-- The derived comparison, characterised lexicographically. -/
theorem Vector4i.lt_iff_lex (a b : Vector4i) :
    Vector4i.lt a b ↔
      a.x < b.x ∨ (a.x = b.x ∧ (a.y < b.y ∨ (a.y = b.y ∧
        (a.z < b.z ∨ (a.z = b.z ∧ a.w < b.w))))) := by
  simp [Vector4i.lt, Vector4i.cmp, then_eq_lt, cmpInt_eq_lt, cmpInt_eq_eq]

/-- C1: for every `Vector4i` v (all-zero, all-negative and i32 boundary
values included, since components range over all integers here),
converting to the SIMD lane vector and back is the identity, both through
`from_glam`/`to_glam` and through the `GlamType` pair
`from_front`/`to_front`. -/
theorem C1_fast_form_roundtrip :
    (∀ v : Vector4i, Vector4i.from_glam (Vector4i.to_glam v) = v) ∧
    (∀ v : Vector4i, IVec4.to_front (IVec4.from_front v) = v) ∧
    Vector4i.from_glam (Vector4i.to_glam ⟨i32Min, i32Max, 0, -1⟩) = ⟨i32Min, i32Max, 0, -1⟩ := by
  refine ⟨fun v => ?_, fun v => ?_, rfl⟩ <;> cases v <;> rfl

/-- C4: the derived comparison on `Vector4i` is lexicographic over
(x, y, z, w) in that priority order, and it is a total (strict linear)
order: irreflexive, transitive, with trichotomy; in particular
(1,0,0,0) < (1,1,0,0) < (2,0,0,0). -/
theorem C4_ord_lexicographic_total :
    (∀ a b : Vector4i, Vector4i.lt a b ↔
      a.x < b.x ∨ (a.x = b.x ∧ (a.y < b.y ∨ (a.y = b.y ∧
        (a.z < b.z ∨ (a.z = b.z ∧ a.w < b.w)))))) ∧
    (∀ a : Vector4i, ¬ Vector4i.lt a a) ∧
    (∀ a b c : Vector4i, Vector4i.lt a b → Vector4i.lt b c → Vector4i.lt a c) ∧
    (∀ a b : Vector4i, Vector4i.lt a b ∨ a = b ∨ Vector4i.lt b a) ∧
    Vector4i.lt ⟨1, 0, 0, 0⟩ ⟨1, 1, 0, 0⟩ ∧ Vector4i.lt ⟨1, 1, 0, 0⟩ ⟨2, 0, 0, 0⟩ := by
  refine ⟨Vector4i.lt_iff_lex, fun a => ?_, fun a b c hab hbc => ?_, fun a b => ?_,
    by decide, by decide⟩
  · rw [Vector4i.lt_iff_lex]; omega
  · rw [Vector4i.lt_iff_lex] at hab hbc ⊢; omega
  · rw [Vector4i.lt_iff_lex, Vector4i.lt_iff_lex, Vector4i.eq_iff]; omega

/-- C4 witness: the total-order clauses instantiated at concrete vectors. -/
theorem C4_ord_lexicographic_total_witness :
    ¬ Vector4i.lt ⟨0, 0, 0, 0⟩ ⟨0, 0, 0, 0⟩ ∧
    (Vector4i.lt ⟨1, 0, 0, 0⟩ ⟨1, 1, 0, 0⟩ → Vector4i.lt ⟨1, 1, 0, 0⟩ ⟨2, 0, 0, 0⟩ →
      Vector4i.lt ⟨1, 0, 0, 0⟩ ⟨2, 0, 0, 0⟩) :=
  ⟨C4_ord_lexicographic_total.2.1 ⟨0, 0, 0, 0⟩,
    C4_ord_lexicographic_total.2.2.1 ⟨1, 0, 0, 0⟩ ⟨1, 1, 0, 0⟩ ⟨2, 0, 0, 0⟩⟩

/-- Embedding of the axis enumeration `Vector4iAxis` (a closed 4-variant
enumeration X, Y, Z, W, in declaration order). -/
inductive Vector4iAxis where
  | X
  | Y
  | Z
  | W
deriving DecidableEq, Repr

/-- Modelled from the spec: the `impl_vector_index!` macro invocation
`impl_vector_index!(Vector4i, i32, (x, y, z, w), Vector4iAxis, (X, Y, Z, W))`
whose definition is not under `src/`; it generates component read access by
axis, mapping X, Y, Z, W to x, y, z, w in declaration order. -/
def Vector4i.index (v : Vector4i) (axis : Vector4iAxis) : Int :=
  match axis with
  | Vector4iAxis.X => v.x
  | Vector4iAxis.Y => v.y
  | Vector4iAxis.Z => v.z
  | Vector4iAxis.W => v.w

/-- Modelled from the spec: the write half (`IndexMut`) generated by
`impl_vector_index!`, setting the component selected by the axis. -/
def Vector4i.setIndex (v : Vector4i) (axis : Vector4iAxis) (val : Int) : Vector4i :=
  match axis with
  | Vector4iAxis.X => ⟨val, v.y, v.z, v.w⟩
  | Vector4iAxis.Y => ⟨v.x, val, v.z, v.w⟩
  | Vector4iAxis.Z => ⟨v.x, v.y, val, v.w⟩
  | Vector4iAxis.W => ⟨v.x, v.y, v.z, val⟩

/-- C7: indexing by an axis is total (each of the four axes reads the
corresponding component, so no axis value is out of range), and writing a
component via an axis then reading via the same axis returns the written
value, for every vector, every axis, and every value written. -/
theorem C7_axis_index_total_roundtrip :
    (∀ v : Vector4i, v.index Vector4iAxis.X = v.x ∧ v.index Vector4iAxis.Y = v.y ∧
      v.index Vector4iAxis.Z = v.z ∧ v.index Vector4iAxis.W = v.w) ∧
    (∀ (v : Vector4i) (a : Vector4iAxis) (val : Int), (v.setIndex a val).index a = val) := by
  exact ⟨fun v => ⟨rfl, rfl, rfl, rfl⟩, fun v a val => by cases a <;> rfl⟩

/-- The arithmetic domain error raised by division or remainder with a zero
divisor component. -/
inductive ArithError where
  | divisionByZero
deriving DecidableEq, Repr

/-- Modelled from the spec: the `impl_vector_operators!` macro (not under
`src/`) generates elementwise `/` on two vectors; a zero divisor component
fails with an arithmetic domain error (native integer semantics, no
saturation or wraparound), otherwise each component is the truncated
quotient as for native `i32` division. -/
def Vector4i.div (a b : Vector4i) : Except ArithError Vector4i :=
  if b.x = 0 ∨ b.y = 0 ∨ b.z = 0 ∨ b.w = 0 then Except.error ArithError.divisionByZero
  else Except.ok ⟨a.x.tdiv b.x, a.y.tdiv b.y, a.z.tdiv b.z, a.w.tdiv b.w⟩

/-- Modelled from the spec: elementwise `%` generated by
`impl_vector_operators!`; a zero divisor component fails with an arithmetic
domain error, otherwise each component is the native truncated remainder. -/
def Vector4i.rem (a b : Vector4i) : Except ArithError Vector4i :=
  if b.x = 0 ∨ b.y = 0 ∨ b.z = 0 ∨ b.w = 0 then Except.error ArithError.divisionByZero
  else Except.ok ⟨a.x.tmod b.x, a.y.tmod b.y, a.z.tmod b.z, a.w.tmod b.w⟩

/-- C2: whenever some component of the divisor is zero, elementwise division
and remainder fail with the arithmetic domain error and return no result
vector. -/
theorem C2_div_rem_zero_divisor (a b : Vector4i)
    (h : b.x = 0 ∨ b.y = 0 ∨ b.z = 0 ∨ b.w = 0) :
    a.div b = Except.error ArithError.divisionByZero ∧
    a.rem b = Except.error ArithError.divisionByZero := by
  unfold Vector4i.div Vector4i.rem
  rw [if_pos h, if_pos h]
  exact ⟨rfl, rfl⟩

/-- C2 witness: dividing (1,2,3,4) by (5,0,1,1), whose y component is zero,
fails for both `/` and `%`. -/
theorem C2_div_rem_zero_divisor_witness :
    (Vector4i.new 1 2 3 4).div (Vector4i.new 5 0 1 1)
        = Except.error ArithError.divisionByZero ∧
    (Vector4i.new 1 2 3 4).rem (Vector4i.new 5 0 1 1)
        = Except.error ArithError.divisionByZero :=
  C2_div_rem_zero_divisor (Vector4i.new 1 2 3 4) (Vector4i.new 5 0 1 1) (by decide)

/-- Model of an `f32` value as consumed by the casts in `from_vector3`:
either NaN, an infinity, or a finite value, the finite values modelled as
rationals (every finite `f32` is a rational, so this is a superset and the
universally quantified theorems below are at least as strong). -/
inductive F32 where
  | nan
  | posInf
  | negInf
  | finite (q : ℚ)

/-- Truncation of a rational toward zero (the rounding used by Rust
float-to-int casts): since the denominator is positive, `tdiv` of the
numerator by the denominator discards the fractional part toward zero. -/
def ratTrunc (q : ℚ) : Int := q.num.tdiv q.den

/-- Embedding of the Rust expression `f as i32` (a saturating cast):
the value is truncated toward zero and clamped to the `i32` range;
NaN casts to 0, the infinities to the respective bound. -/
def f32AsI32 : F32 → Int
  | F32.nan => 0
  | F32.posInf => i32Max
  | F32.negInf => i32Min
  | F32.finite q => max i32Min (min i32Max (ratTrunc q))

/-- Embedding of the struct `Vector4` (the floating-point sibling type,
four `f32` components). -/
structure Vector4 where
  x : F32
  y : F32
  z : F32
  w : F32

/-- `Vector4i::from_vector3`: each component of the `Vector4` is cast with
`as i32`. -/
def Vector4i.from_vector3 (v : Vector4) : Vector4i :=
  ⟨f32AsI32 v.x, f32AsI32 v.y, f32AsI32 v.z, f32AsI32 v.w⟩

/-- On nonnegative rationals, truncation toward zero is the floor. -/
theorem ratTrunc_eq_floor (q : ℚ) (h : 0 ≤ q) : ratTrunc q = ⌊q⌋ := by
  rw [ratTrunc, Rat.floor_def, Int.tdiv_eq_ediv (Rat.num_nonneg.mpr h) (by positivity)]

/-- On negative rationals, truncation toward zero is the ceiling. -/
theorem ratTrunc_eq_ceil (q : ℚ) (h : q < 0) : ratTrunc q = ⌈q⌉ := by
  have h1 : ratTrunc q = -ratTrunc (-q) := by
    simp [ratTrunc, Rat.neg_num, Rat.neg_den, Int.neg_tdiv]
  have h2 : ratTrunc (-q) = ⌊-q⌋ := ratTrunc_eq_floor (-q) (by linarith)
  have h3 : ⌈q⌉ = -⌊-q⌋ := by rw [← Int.ceil_neg, neg_neg]
  omega

/-- Truncation toward zero maps the interval `[lo, hi]` (integer bounds)
into `[lo, hi]`. -/
theorem ratTrunc_bounds (q : ℚ) (lo hi : Int) (h1 : (lo : ℚ) ≤ q) (h2 : q ≤ (hi : ℚ)) :
    lo ≤ ratTrunc q ∧ ratTrunc q ≤ hi := by
  rcases le_or_lt 0 q with hq | hq
  · rw [ratTrunc_eq_floor q hq]
    constructor
    · calc lo = ⌊(lo : ℚ)⌋ := (Int.floor_intCast lo).symm
        _ ≤ ⌊q⌋ := Int.floor_le_floor h1
    · calc ⌊q⌋ ≤ ⌊(hi : ℚ)⌋ := Int.floor_le_floor h2
        _ = hi := Int.floor_intCast hi
  · rw [ratTrunc_eq_ceil q hq]
    constructor
    · calc lo = ⌈(lo : ℚ)⌉ := (Int.ceil_intCast lo).symm
        _ ≤ ⌈q⌉ := Int.ceil_le_ceil h1
    · calc ⌈q⌉ ≤ ⌈(hi : ℚ)⌉ := Int.ceil_le_ceil h2
        _ = hi := Int.ceil_intCast hi

/-- C3: `from_vector3` is total by construction (it returns a `Vector4i`
for every input, error-free); every finite component whose value lies in
the `i32` range is truncated toward zero, not rounded; and the float
vector (1.9, -1.9, 0.5, -0.5) converts to (1, -1, 0, 0). -/
theorem C3_from_vector3_truncates (q : ℚ)
    (hlo : (i32Min : ℚ) ≤ q) (hhi : q ≤ (i32Max : ℚ)) :
    (∀ c : F32, ∃ r : Int, f32AsI32 c = r) ∧
    f32AsI32 (F32.finite q) = ratTrunc q ∧
    Vector4i.from_vector3
        ⟨F32.finite (19/10), F32.finite (-19/10), F32.finite (1/2), F32.finite (-1/2)⟩
      = ⟨1, -1, 0, 0⟩ := by
  obtain ⟨h1, h2⟩ := ratTrunc_bounds q i32Min i32Max hlo hhi
  refine ⟨fun c => ⟨f32AsI32 c, rfl⟩, ?_, ?_⟩
  · simp only [f32AsI32]
    omega
  · have ex : ∀ q : ℚ, (-2 : ℚ) ≤ q → q ≤ (2 : ℚ) →
        f32AsI32 (F32.finite q) = ratTrunc q := by
      intro q hq1 hq2
      have hlo : (i32Min : ℚ) ≤ q := by
        refine le_trans ?_ hq1
        norm_num [i32Min]
      have hhi : q ≤ (i32Max : ℚ) := by
        refine le_trans hq2 ?_
        norm_num [i32Max]
      obtain ⟨h1, h2⟩ := ratTrunc_bounds q i32Min i32Max hlo hhi
      simp only [f32AsI32]
      omega
    simp only [Vector4i.from_vector3]
    rw [ex (19/10) (by norm_num) (by norm_num), ex (-19/10) (by norm_num) (by norm_num),
      ex (1/2) (by norm_num) (by norm_num), ex (-1/2) (by norm_num) (by norm_num)]
    refine (Vector4i.eq_iff _ _).mpr ⟨?_, ?_, ?_, ?_⟩ <;>
      · show ratTrunc _ = _
        norm_num [ratTrunc]
        decide

/-- C3 witness: the in-range truncation clause instantiated at q = 19/10. -/
theorem C3_from_vector3_truncates_witness :
    f32AsI32 (F32.finite (19/10)) = ratTrunc (19/10) :=
  (C3_from_vector3_truncates (19/10)
    (by norm_num [i32Min]) (by norm_num [i32Max])).2.1

/-- C10: the float-to-int cast saturates: a finite value above `i32::MAX`
produces exactly `i32::MAX`, a finite value below `i32::MIN` produces
exactly `i32::MIN` (and likewise the infinities), NaN produces 0, and the
conversion is total (never panics). -/
theorem C10_from_vector3_saturates (q qlow : ℚ)
    (hq : (i32Max : ℚ) < q) (hqlow : qlow < (i32Min : ℚ)) :
    f32AsI32 (F32.finite q) = i32Max ∧
    f32AsI32 (F32.finite qlow) = i32Min ∧
    f32AsI32 F32.nan = 0 ∧ f32AsI32 F32.posInf = i32Max ∧ f32AsI32 F32.negInf = i32Min ∧
    (∀ v : Vector4, ∃ r : Vector4i, Vector4i.from_vector3 v = r) := by
  have hmaxnn : (0 : ℚ) ≤ (i32Max : ℚ) := by norm_num [i32Max]
  have h1 : i32Max ≤ ratTrunc q := by
    rw [ratTrunc_eq_floor q (le_trans hmaxnn (le_of_lt hq))]
    calc i32Max = ⌊(i32Max : ℚ)⌋ := (Int.floor_intCast i32Max).symm
      _ ≤ ⌊q⌋ := Int.floor_le_floor (le_of_lt hq)
  have h2 : ratTrunc qlow ≤ i32Min := by
    have hneg : qlow < 0 := lt_of_lt_of_le hqlow (by norm_num [i32Min])
    rw [ratTrunc_eq_ceil qlow hneg]
    calc ⌈qlow⌉ ≤ ⌈(i32Min : ℚ)⌉ := Int.ceil_le_ceil (le_of_lt hqlow)
      _ = i32Min := Int.ceil_intCast i32Min
  have hrange : i32Min ≤ i32Max := by norm_num [i32Min, i32Max]
  refine ⟨?_, ?_, rfl, rfl, rfl, fun v => ⟨Vector4i.from_vector3 v, rfl⟩⟩ <;>
    · simp only [f32AsI32]
      omega

/-- C10 witness: saturation at the concrete out-of-range values
2^31 + 7 and -(2^31) - 7. -/
theorem C10_from_vector3_saturates_witness :
    f32AsI32 (F32.finite (2147483655 : ℚ)) = i32Max ∧
    f32AsI32 (F32.finite (-2147483655 : ℚ)) = i32Min :=
  ⟨(C10_from_vector3_saturates (2147483655 : ℚ) (-2147483655 : ℚ)
      (by norm_num [i32Max]) (by norm_num [i32Min])).1,
    (C10_from_vector3_saturates (2147483655 : ℚ) (-2147483655 : ℚ)
      (by norm_num [i32Max]) (by norm_num [i32Min])).2.1⟩

/-- Model of a value in the structured serialization format: a signed
integer, or any non-integer value (string, float, boolean, null, ...). -/
inductive JValue where
  | jint (n : Int)
  | jnonint
deriving DecidableEq, Repr

/-- Modelled from the spec: the derived `serde::Serialize` impl (generated
code, not under `src/`) emits a mapping with exactly the keys "x", "y",
"z", "w" in that order, each bound to the signed integer component. -/
def Vector4i.serialize (v : Vector4i) : List (String × JValue) :=
  [("x", JValue.jint v.x), ("y", JValue.jint v.y),
   ("z", JValue.jint v.z), ("w", JValue.jint v.w)]

/-- Field lookup in a serialized mapping (first binding wins; decoding is
order-insensitive). -/
def lookupField (m : List (String × JValue)) (k : String) : Option JValue :=
  match m with
  | [] => none
  | (k2, val) :: rest => if k2 = k then some val else lookupField rest k

/-- Modelled from the spec: the derived `serde::Deserialize` impl (generated
code, not under `src/`) reconstructs a vector from the four keys "x", "y",
"z", "w" regardless of order, and fails with a decode error when a required
key is missing or bound to a non-integer value; no partial or defaulted
vector is produced. -/
def Vector4i.deserialize (m : List (String × JValue)) : Option Vector4i :=
  match lookupField m "x", lookupField m "y", lookupField m "z", lookupField m "w" with
  | some (JValue.jint x), some (JValue.jint y), some (JValue.jint z), some (JValue.jint w) =>
      some ⟨x, y, z, w⟩
  | _, _, _, _ => none

/-- C5: serialization produces a mapping whose key list is exactly
["x", "y", "z", "w"] in that order, every value a signed integer, and
deserializing the output reconstructs the original vector; for the zero
vector the serialized shape is the mapping with all four keys bound to 0. -/
theorem C5_serde_roundtrip :
    (∀ v : Vector4i, Vector4i.deserialize (Vector4i.serialize v) = some v) ∧
    (∀ v : Vector4i, (Vector4i.serialize v).map Prod.fst = ["x", "y", "z", "w"]) ∧
    (∀ v : Vector4i, (Vector4i.serialize v).map Prod.snd =
      [JValue.jint v.x, JValue.jint v.y, JValue.jint v.z, JValue.jint v.w]) ∧
    Vector4i.serialize Vector4i.ZERO =
      [("x", JValue.jint 0), ("y", JValue.jint 0), ("z", JValue.jint 0), ("w", JValue.jint 0)] :=
  ⟨fun _ => rfl, fun _ => rfl, fun _ => rfl, rfl⟩

/-- C6: any structured input that is missing one of the four required keys,
or binds one of them to a non-integer value, deserializes to a decode
failure, never to a partial or defaulted vector. -/
theorem C6_deserialize_rejects_malformed (m : List (String × JValue))
    (h : ∃ k ∈ ["x", "y", "z", "w"],
      lookupField m k = none ∨ lookupField m k = some JValue.jnonint) :
    Vector4i.deserialize m = none := by
  rw [Vector4i.deserialize.eq_def]
  split
  · obtain ⟨k, hk, hbad⟩ := h
    simp only [List.mem_cons, List.mem_singleton, List.not_mem_nil, or_false] at hk
    rcases hk with rfl | rfl | rfl | rfl <;> simp_all
  · rfl

/-- C6 witness: the input with key x bound to 1, key z bound to a
non-integer, and keys y and w absent is rejected. -/
theorem C6_deserialize_rejects_malformed_witness :
    Vector4i.deserialize [("x", JValue.jint 1), ("z", JValue.jnonint)] = none :=
  C6_deserialize_rejects_malformed [("x", JValue.jint 1), ("z", JValue.jnonint)]
    ⟨"y", by simp, Or.inl rfl⟩

/-- Decimal digit characters of `n`, most significant first, prepended to
`acc`.  Structured on a fuel argument so the definition evaluates by kernel
reduction; any fuel with `n ≤ fuel` gives the true digit string (the
argument is divided by 10 each step). -/
def natDecCharsAux : Nat → Nat → List Char → List Char
  | 0, n, acc => Nat.digitChar (n % 10) :: acc
  | fuel + 1, n, acc =>
    if n < 10 then Nat.digitChar n :: acc
    else natDecCharsAux fuel (n / 10) (Nat.digitChar (n % 10) :: acc)

/-- Decimal rendering of a natural number (embedding of the digits emitted
by `u32` formatting). -/
def natDecimal (n : Nat) : String := String.mk (natDecCharsAux n n [])

/-- Embedding of Rust `i32` `Display` (the `{}` placeholder): an optional
leading minus sign followed by the decimal digits of the absolute value,
with no leading zeros and no locale variation. -/
def intDecimal (n : Int) : String :=
  if n < 0 then String.mk ('-' :: natDecCharsAux n.natAbs n.natAbs [])
  else natDecimal n.natAbs

/-- `fmt::Display for Vector4i`:
`write!(f, "({}, {}, {}, {})", self.x, self.y, self.z, self.w)`. -/
def Vector4i.display (v : Vector4i) : String :=
  "(" ++ intDecimal v.x ++ ", " ++ intDecimal v.y ++ ", " ++ intDecimal v.z ++ ", "
    ++ intDecimal v.w ++ ")"

/-- Value of a decimal digit character, `none` on anything that is not one
of the ten digit characters. -/
def digitVal (c : Char) : Option Nat :=
  if 48 ≤ c.toNat ∧ c.toNat ≤ 57 then some (c.toNat - 48) else none

/-- Left-to-right evaluation of a digit-character string, failing on any
non-digit character. -/
def parseDigits : List Char → Nat → Option Nat
  | [], acc => some acc
  | c :: cs, acc =>
    match digitVal c with
    | some d => parseDigits cs (acc * 10 + d)
    | none => none

/-- Specification-side reading of a signed decimal numeral: an optional
minus sign followed by decimal digits only, rejecting the empty string,
a bare minus sign, any leading zero (a zero digit followed by more
characters, with or without sign), and any non-digit character.  A numeral
is accepted exactly when it is the canonical decimal form of its value. -/
def decodeDec (l : List Char) : Option Int :=
  match l with
  | [] => none
  | c :: cs =>
    if c = '-' then
      match cs with
      | [] => none
      | d :: _ => if d = '0' then none else (parseDigits cs 0).map (fun n => -(n : Int))
    else if c = '0' then
      if cs = [] then some 0 else none
    else (parseDigits (c :: cs) 0).map (fun n => (n : Int))

theorem natDecCharsAux_acc (fuel : Nat) :
    ∀ (n : Nat) (acc : List Char),
      natDecCharsAux fuel n acc = natDecCharsAux fuel n [] ++ acc := by
  induction fuel with
  | zero => intro n acc; rfl
  | succ fuel ih =>
    intro n acc
    by_cases h : n < 10
    · simp [natDecCharsAux, h]
    · simp only [natDecCharsAux, if_neg h]
      rw [ih (n / 10) (Nat.digitChar (n % 10) :: acc), ih (n / 10) [Nat.digitChar (n % 10)],
        List.append_assoc]
      rfl

theorem digitVal_digitChar (d : Nat) (h : d < 10) : digitVal (Nat.digitChar d) = some d := by
  interval_cases d <;> decide

theorem parseDigits_append (l1 l2 : List Char) :
    ∀ acc : Nat, parseDigits (l1 ++ l2) acc =
      (parseDigits l1 acc).bind (fun m => parseDigits l2 m) := by
  induction l1 with
  | nil => intro acc; rfl
  | cons c cs ih =>
    intro acc
    simp only [List.cons_append, parseDigits]
    cases digitVal c with
    | none => rfl
    | some d => exact ih (acc * 10 + d)

theorem parse_natDecCharsAux (fuel : Nat) :
    ∀ n : Nat, n ≤ fuel → parseDigits (natDecCharsAux fuel n []) 0 = some n := by
  induction fuel with
  | zero =>
    intro n hn
    interval_cases n
    decide
  | succ fuel ih =>
    intro n hn
    by_cases h : n < 10
    · simp only [natDecCharsAux, if_pos h, parseDigits, digitVal_digitChar n h]
      simp
    · simp only [natDecCharsAux, if_neg h]
      rw [natDecCharsAux_acc fuel (n / 10) [Nat.digitChar (n % 10)],
        parseDigits_append _ _ 0, ih (n / 10) (by omega)]
      have h10 : n % 10 < 10 := Nat.mod_lt n (by omega)
      simp only [Option.bind_some, parseDigits, digitVal_digitChar (n % 10) h10]
      have hred : ((some (n / 10)).bind fun a => some (a * 10 + n % 10))
          = some (n / 10 * 10 + n % 10) := rfl
      rw [hred]
      congr 1
      omega

theorem natDecCharsAux_head (fuel : Nat) :
    ∀ (n : Nat) (acc : List Char), 1 ≤ n → n ≤ fuel →
      ∃ d l, 1 ≤ d ∧ d ≤ 9 ∧ natDecCharsAux fuel n acc = Nat.digitChar d :: l := by
  induction fuel with
  | zero => intro n acc h1 h2; omega
  | succ fuel ih =>
    intro n acc h1 h2
    by_cases h : n < 10
    · exact ⟨n, acc, h1, by omega, by simp [natDecCharsAux, h]⟩
    · obtain ⟨d, l, hd1, hd9, hl⟩ :=
        ih (n / 10) (Nat.digitChar (n % 10) :: acc) (by omega) (by omega)
      exact ⟨d, l, hd1, hd9, by simp only [natDecCharsAux, if_neg h]; exact hl⟩

theorem digitChar_ne (d : Nat) (h1 : 1 ≤ d) (h9 : d ≤ 9) :
    Nat.digitChar d ≠ '-' ∧ Nat.digitChar d ≠ '0' := by
  interval_cases d <;> exact ⟨by decide, by decide⟩

/-- Decoding the canonical rendering of any natural number recovers it. -/
theorem decode_natDecimal (m : Nat) :
    decodeDec (natDecCharsAux m m []) = some (m : Int) := by
  rcases Nat.eq_zero_or_pos m with rfl | hm
  · decide
  · obtain ⟨d, l, hd1, hd9, hl⟩ := natDecCharsAux_head m m [] hm le_rfl
    obtain ⟨hdash, hzero⟩ := digitChar_ne d hd1 hd9
    rw [hl]
    simp only [decodeDec, if_neg hdash, if_neg hzero]
    rw [← hl, parse_natDecCharsAux m m le_rfl]
    rfl

/-- C8: the text rendering of every vector is exactly
`(x, y, z, w)` — an opening parenthesis, the four components separated by
", ", a closing parenthesis — where each component is the canonical signed
decimal numeral of its value (digits only after an optional minus sign, no
leading zeros): reading each rendered component back as a strict decimal
numeral recovers the component.  In particular (1,-2,3,0) renders as
"(1, -2, 3, 0)". -/
theorem C8_display_format :
    (∀ v : Vector4i, Vector4i.display v =
      "(" ++ intDecimal v.x ++ ", " ++ intDecimal v.y ++ ", " ++ intDecimal v.z ++ ", "
        ++ intDecimal v.w ++ ")") ∧
    (∀ n : Int, decodeDec (intDecimal n).data = some n) ∧
    Vector4i.display ⟨1, -2, 3, 0⟩ = "(1, -2, 3, 0)" := by
  refine ⟨fun v => rfl, fun n => ?_, by decide⟩
  by_cases hn : n < 0
  · have hm : 1 ≤ n.natAbs := by omega
    obtain ⟨d, l, hd1, hd9, hl⟩ := natDecCharsAux_head n.natAbs n.natAbs [] hm le_rfl
    obtain ⟨hdash, hzero⟩ := digitChar_ne d hd1 hd9
    simp only [intDecimal, if_pos hn]
    show decodeDec ('-' :: natDecCharsAux n.natAbs n.natAbs []) = some n
    rw [hl]
    have hstep : decodeDec ('-' :: Nat.digitChar d :: l) =
        (if Nat.digitChar d = '0' then none
         else (parseDigits (Nat.digitChar d :: l) 0).map (fun m => -(m : Int))) := rfl
    rw [hstep, if_neg hzero, ← hl, parse_natDecCharsAux n.natAbs n.natAbs le_rfl]
    have hmap : (some n.natAbs).map (fun m => -(m : Int)) = some (-(n.natAbs : Int)) := rfl
    rw [hmap]
    congr 1
    omega
  · simp only [intDecimal, if_neg hn, natDecimal]
    show decodeDec (natDecCharsAux n.natAbs n.natAbs []) = some n
    rw [decode_natDecimal n.natAbs]
    congr 1
    omega
